import Mathlib

/-
Verification of the Kepler orbital-elements module (src/kepler.js).

The JavaScript object stores a body's primary attributes (position vector
rvec, velocity vector vvec, scalar mass) together with lazily derived
orbital elements in one property map.  `require` resolves prerequisites
recursively, each `set_x` method computes one attribute, and `eccAnom`
advances the mean anomaly with the clock and solves Kepler's equation by
Newton-Raphson iteration.

The embedding below models:
  * the property map as a function from attribute names to optional values
    (`none` plays the role of JavaScript's `undefined`);
  * JavaScript numbers as real numbers, with `Option ℝ` ("JsN") threading
    the invalid value (NaN) through arithmetic: every operation on a
    missing operand yields `none`, numeric comparisons with a missing
    operand are `false`, and `Math.sqrt`/`Math.acos` of an out-of-domain
    argument yield `none`.  Division is modelled totally via real division
    (a zero divisor, which JavaScript sends to ±Infinity, never occurs in
    any instance analysed here);
  * the external 2-D vector primitives (length, cross, divide, subtract,
    cross of a vector with a scalar) in the standard way;
  * each `set_x` method as its prerequisite list exactly as written in the
    source (`set_r`, `set_v`, `set_μ`, `set_vt` and `set_eccvec` call no
    `require`) plus its formula;
  * `require` as the recursive resolver, with a fuel parameter standing in
    for the JavaScript call stack (the source has no cycle guard; the
    actual table is acyclic and never exhausts the fuel), and an
    invocation log recording each `set_` call so that memoization can be
    stated;
  * `eccAnom` as the mean-anomaly update, the reduction
    `M := 2π·(M − floor M)`, the Newton loop capped at 30 iterations with
    tolerance 0.001, and the final degree conversion `E / (π/180)`.
    Line 265 of the source computes the pre-loop residual with `sin(this.M)`
    where the in-loop residual (line 269) uses `sin(E)`; both are modelled
    exactly as written (`firstF` versus `resid`).

Real-number comparisons are classically decidable only, so the whole
development sits in a `noncomputable section`; concrete runs are evaluated
by kernel reduction (`rfl`) on the constructor level and by `simp` /
`norm_num` where a real comparison must be settled.
-/

noncomputable section

namespace Kepler

/-- A stored property value: a scalar, a 2-D vector, or the invalid value
(JavaScript's NaN / a shape mismatch). -/
inductive Val where
  | num : ℝ → Val
  | vec : ℝ → ℝ → Val
  | nan : Val

/-- The property map of one orbital body: attribute name to stored value,
`none` meaning the property is undefined. -/
abbrev State := String → Option Val

/-- Property assignment `this[k] = v`. -/
def put (s : State) (k : String) (v : Val) : State :=
  fun q => if q = k then some v else s q

/-- Read a scalar property; a missing or non-scalar value reads as invalid. -/
def getNum (s : State) (k : String) : Option ℝ :=
  match s k with
  | some (Val.num x) => some x
  | _ => none

/-- Read a vector property; a missing or non-vector value reads as invalid. -/
def getVec (s : State) (k : String) : Option (ℝ × ℝ) :=
  match s k with
  | some (Val.vec a b) => some (a, b)
  | _ => none

/-- JavaScript number with NaN: `none` is the invalid value. -/
abbrev JsN := Option ℝ

def jsAdd : JsN → JsN → JsN
  | some a, some b => some (a + b)
  | _, _ => none

def jsSub : JsN → JsN → JsN
  | some a, some b => some (a - b)
  | _, _ => none

def jsMul : JsN → JsN → JsN
  | some a, some b => some (a * b)
  | _, _ => none

/-- Division; JavaScript's ±Infinity on a zero divisor is not modelled (no
instance here divides by zero). -/
def jsDiv : JsN → JsN → JsN
  | some a, some b => some (a / b)
  | _, _ => none

def jsNeg : JsN → JsN
  | some a => some (-a)
  | none => none

/-- `x.square()` of the number prototype extension. -/
def jsSq : JsN → JsN
  | some a => some (a * a)
  | none => none

/-- `x.cube()` of the number prototype extension. -/
def jsCube : JsN → JsN
  | some a => some (a * a * a)
  | none => none

def jsAbs : JsN → JsN
  | some a => some |a|
  | none => none

/-- `Math.sqrt`: NaN on a negative argument. -/
def jsSqrt : JsN → JsN
  | some a => if a < 0 then none else some (Real.sqrt a)
  | none => none

def jsSin : JsN → JsN
  | some a => some (Real.sin a)
  | none => none

def jsCos : JsN → JsN
  | some a => some (Real.cos a)
  | none => none

/-- `Math.floor`, as a real-valued function. -/
def jsFloor : JsN → JsN
  | some a => some ((⌊a⌋ : ℤ) : ℝ)
  | none => none

/-- `Math.acos`: NaN outside [-1, 1]. -/
def jsAcos : JsN → JsN
  | some a => if a < -1 ∨ 1 < a then none else some (Real.arccos a)
  | none => none

/-- Strict comparison `a < b`; false when either side is invalid, exactly as
JavaScript compares with NaN. -/
def jsLtB : JsN → JsN → Bool
  | some a, some b => decide (a < b)
  | _, _ => false

/-- The two-argument arctangent of the Math library. -/
def atan2R (y x : ℝ) : ℝ :=
  if 0 < x then Real.arctan (y / x)
  else if x < 0 then
    (if 0 ≤ y then Real.arctan (y / x) + Real.pi else Real.arctan (y / x) - Real.pi)
  else if 0 < y then Real.pi / 2
  else if y < 0 then -(Real.pi / 2)
  else 0

def jsAtan2 : JsN → JsN → JsN
  | some y, some x => some (atan2R y x)
  | _, _ => none

/-- Length of a 2-D vector (external vector primitive). -/
def jsVLen : Option (ℝ × ℝ) → JsN
  | some v => some (Real.sqrt (v.1 * v.1 + v.2 * v.2))
  | none => none

/-- 2-D cross product of two vectors: the scalar z-component. -/
def jsCross : Option (ℝ × ℝ) → Option (ℝ × ℝ) → JsN
  | some a, some b => some (a.1 * b.2 - a.2 * b.1)
  | _, _ => none

/-- 2-D cross product of a vector with a scalar (external vector primitive):
`v × s = (v.y·s, −v.x·s)`. -/
def jsCrossVS : Option (ℝ × ℝ) → JsN → Option (ℝ × ℝ)
  | some v, some x => some (v.2 * x, -(v.1 * x))
  | _, _ => none

/-- Componentwise division of a vector by a scalar. -/
def jsVDiv : Option (ℝ × ℝ) → JsN → Option (ℝ × ℝ)
  | some v, some x => some (v.1 / x, v.2 / x)
  | _, _ => none

/-- Componentwise vector subtraction. -/
def jsVSub : Option (ℝ × ℝ) → Option (ℝ × ℝ) → Option (ℝ × ℝ)
  | some a, some b => some (a.1 - b.1, a.2 - b.2)
  | _, _ => none

def jsVX : Option (ℝ × ℝ) → JsN
  | some v => some v.1
  | none => none

def jsVY : Option (ℝ × ℝ) → JsN
  | some v => some v.2
  | none => none

/-- Store a scalar computation result; an invalid computation stores NaN,
which is a defined property value (`typeof` no longer `undefined`). -/
def toVal : JsN → Val
  | some x => Val.num x
  | none => Val.nan

/-- Store a vector computation result. -/
def toValV : Option (ℝ × ℝ) → Val
  | some v => Val.vec v.1 v.2
  | none => Val.nan

/-- The prerequisite list each `set_x` passes to `require`, exactly as in the
source.  `set_r`, `set_v`, `set_μ` and `set_vt` call no `require` (they read
only primary attributes or constants), and `set_eccvec` (source lines
167-169) also calls no `require` although its formula reads `h`, `μ` and
`r`. -/
def ruleTable : List (String × List String) :=
  [("r", []), ("v", []), ("μ", []),
   ("ek", ["v"]), ("ep", ["μ", "r"]), ("ε", ["ek", "ep"]),
   ("I", ["r"]), ("Ω", ["r"]), ("L", ["I", "Ω"]), ("h", ["L", "μ"]),
   ("a", ["μ", "ε"]), ("b", ["a", "ecc"]),
   ("eccvec", []), ("ecc", ["ε", "h", "μ"]), ("p", ["a", "μ"]),
   ("Et", ["a"]), ("ap", ["ecc", "a"]), ("pe", ["ecc", "a"]),
   ("ω", ["eccvec"]), ("vt", [])]

/-- Look a name up in the table; a name with no `set_` method yields
`none`. -/
def prereqOf (k : String) : Option (List String) :=
  (ruleTable.find? (fun e => e.1 == k)).map (fun e => e.2)

/-- The body of each `set_x` method: the value assigned to `this.x`,
transcribed from the source formulas. -/
def fml (k : String) (s : State) : Val :=
  if k = "r" then toVal (jsVLen (getVec s "rvec")) else
  if k = "v" then toVal (jsVLen (getVec s "vvec")) else
  if k = "μ" then Val.num 398600 else
  if k = "ek" then toVal (jsDiv (jsSq (getNum s "v")) (some 2)) else
  if k = "ep" then toVal (jsDiv (jsNeg (getNum s "μ")) (getNum s "r")) else
  if k = "ε" then toVal (jsAdd (getNum s "ek") (getNum s "ep")) else
  if k = "I" then toVal (jsMul (getNum s "mass") (jsSq (getNum s "r"))) else
  if k = "Ω" then
    toVal (jsDiv (jsCross (getVec s "rvec") (getVec s "vvec")) (jsSq (getNum s "r"))) else
  if k = "L" then toVal (jsMul (getNum s "I") (getNum s "Ω")) else
  if k = "h" then toVal (jsDiv (getNum s "L") (getNum s "mass")) else
  if k = "a" then
    toVal (jsDiv (jsNeg (getNum s "μ")) (jsMul (some 2) (getNum s "ε"))) else
  if k = "b" then
    (if jsLtB (some 1) (getNum s "ecc") then
      toVal (jsMul (getNum s "a") (jsSqrt (jsSub (jsSq (getNum s "ecc")) (some 1))))
    else
      toVal (jsMul (getNum s "a") (jsSqrt (jsSub (some 1) (jsSq (getNum s "ecc")))))) else
  if k = "eccvec" then
    toValV (jsVSub (jsVDiv (jsCrossVS (getVec s "vvec") (getNum s "h")) (getNum s "μ"))
      (jsVDiv (getVec s "rvec") (getNum s "r"))) else
  if k = "ecc" then
    toVal (jsSqrt (jsAdd (some 1)
      (jsDiv (jsMul (jsMul (some 2) (getNum s "ε")) (jsSq (getNum s "h")))
        (jsSq (getNum s "μ"))))) else
  if k = "p" then
    toVal (jsMul (jsMul (some 2) (some Real.pi))
      (jsSqrt (jsDiv (jsCube (getNum s "a")) (getNum s "μ")))) else
  if k = "Et" then toVal (jsAcos (jsDiv (jsVX (getVec s "rvec")) (getNum s "a"))) else
  if k = "ap" then toVal (jsMul (jsAdd (some 1) (getNum s "ecc")) (getNum s "a")) else
  if k = "pe" then toVal (jsMul (jsSub (some 1) (getNum s "ecc")) (getNum s "a")) else
  if k = "ω" then
    toVal (jsAtan2 (jsVY (getVec s "eccvec")) (jsVX (getVec s "eccvec"))) else
  if k = "vt" then
    toVal (jsAtan2 (jsVY (getVec s "rvec")) (jsVX (getVec s "rvec"))) else
  Val.nan

/-- Resolver failure: the requested name has no `set_` method (the
JavaScript call `this['set_' + name]()` throws), or the recursion fuel ran
out (stands in for the unbounded recursion the source would perform on a
cyclic table; the actual table is acyclic, so this never fires here). -/
inductive KErr where
  | missingDerivation : String → KErr
  | fuelExhausted : KErr

/-- The loop body of `require(properties)`: walk the list in order; a name
whose property is still `undefined` is derived by the supplied derivation
function.  Returns the new state together with the log of `set_` invocations
performed (instrumentation used to state memoization). -/
def requireList (drv : String → State → Except KErr (State × List String)) :
    List String → State → Except KErr (State × List String)
  | [], s => .ok (s, [])
  | k :: ks, s =>
    match s k with
    | some _ => requireList drv ks s
    | none =>
      match drv k s with
      | .error e => .error e
      | .ok (s1, l1) =>
        match requireList drv ks s1 with
        | .error e => .error e
        | .ok (s2, l2) => .ok (s2, l1 ++ l2)

/-- One `set_k` invocation: run `require` on the method's prerequisite list,
then assign `this.k` the formula value.  The fuel bounds the recursion
depth. -/
def deriveF : ℕ → String → State → Except KErr (State × List String)
  | 0 => fun k _s =>
    match prereqOf k with
    | none => .error (.missingDerivation k)
    | some _ => .error .fuelExhausted
  | fuel + 1 => fun k s =>
    match prereqOf k with
    | none => .error (.missingDerivation k)
    | some pres =>
      match requireList (deriveF fuel) pres s with
      | .error e => .error e
      | .ok (s1, l1) => .ok (put s1 k (fml k s1), l1 ++ [k])

/-- The public `require(properties)` of the source, with fuel 30 (the table's
dependency chains are at most 6 deep). -/
def require : List String → State → Except KErr (State × List String) :=
  requireList (deriveF 30)

/-- The `Kepler(rvec, vvec, mass)` constructor. -/
def mkKepler (rx ry vx vy m : ℝ) : State := fun k =>
  if k = "rvec" then some (Val.vec rx ry) else
  if k = "vvec" then some (Val.vec vx vy) else
  if k = "mass" then some (Val.num m) else none

/-- The degree conversion constant `K = π / 180` of `eccAnom`. -/
def K : ℝ := Real.pi / 180

/-- `this.M = this.Mt + this.n * (tick - this.epoch)` (source line 255). -/
def rawM (mt n epoch tick : JsN) : JsN :=
  jsAdd mt (jsMul n (jsSub tick epoch))

/-- `this.M = 2.0 * π * (this.M - Math.floor(this.M))` (source line 257). -/
def reduceM (m : JsN) : JsN :=
  jsMul (some (2 * Real.pi)) (jsSub m (jsFloor m))

/-- Initial Newton guess (source lines 259-263): `E = M` when `this.ε < 0.8`,
else `E = π`; a NaN `ε` compares false and also selects `π`. -/
def initE (e m : JsN) : JsN :=
  if jsLtB e (some 0.8) then m else some Real.pi

/-- The pre-loop residual, exactly as on source line 265:
`F = E - this.ε * Math.sin(this.M) - this.M` — note `sin(this.M)`, not
`sin(E)`. -/
def firstF (e m : JsN) : JsN :=
  jsSub (jsSub (initE e m) (jsMul e (jsSin m))) m

/-- The in-loop residual, as on source line 269:
`F = E - this.ε * Math.sin(E) - this.M`. -/
def resid (e m ecur : JsN) : JsN :=
  jsSub (jsSub ecur (jsMul e (jsSin ecur))) m

/-- The Newton loop (source lines 267-271): while `|F| > 0.001` and fewer
than `maxIter` rounds remain, step `E ← E − F/(1 − ε·cos E)` and recompute
`F` at the new iterate.  Returns the final iterate and the number of
iterations executed; a NaN residual compares false and exits at once, as in
JavaScript. -/
def newtonLoop (e m : JsN) : ℕ → JsN → JsN → JsN × ℕ
  | 0, ecur, _ => (ecur, 0)
  | fuel + 1, ecur, f =>
    if jsLtB (some 0.001) (jsAbs f) then
      let e2 := jsSub ecur (jsDiv f (jsSub (some 1) (jsMul e (jsCos ecur))))
      let r := newtonLoop e m fuel e2 (resid e m e2)
      (r.1, r.2 + 1)
    else (ecur, 0)

/-- The whole solver run on a given `ε` and reduced `M`: 30 iterations
maximum, started from the initial guess and the line-265 residual. -/
def eccAnomCore (e m : JsN) : JsN × ℕ :=
  newtonLoop e m 30 (initE e m) (firstF e m)

/-- The last iterate the solver holds when the loop exits. -/
def eccAnomE (e m : JsN) : JsN := (eccAnomCore e m).1

/-- The value stored into `this.E`: the last iterate divided by `K = π/180`
(source line 273). -/
def storedE (e m : JsN) : JsN := jsDiv (eccAnomE e m) (some K)

/-- The full `eccAnom()` method as a state transformer: update and reduce
`this.M` from the clock tick, then solve and store `this.E`.  It reads
`this.ε` (the specific-orbital-energy slot, which the solver uses as the
eccentricity) without requiring it. -/
def eccAnomS (tick : ℝ) (s : State) : State :=
  let m := reduceM (rawM (getNum s "Mt") (getNum s "n") (getNum s "epoch") (some tick))
  put (put s "M" (toVal m)) "E" (toVal (jsDiv (eccAnomE (getNum s "ε") m) (some K)))

/-- A freshly constructed body: `rvec = (1, 0)`, `vvec = (0, 1)`,
`mass = 1`. -/
def bodyFresh : State := mkKepler 1 0 0 1 1

/-- The state after `require(['r'])` on the fresh body. -/
def rState : State :=
  match require ["r"] bodyFresh with
  | .ok p => p.1
  | .error _ => bodyFresh

/-- The state after deriving `eccvec` first on the fresh body. -/
def eccvecState : State := put bodyFresh "eccvec" (fml "eccvec" bodyFresh)

/-- Request sequence A: `require(['eccvec'])` straight away. -/
def seqA : Except KErr (State × List String) := require ["eccvec"] bodyFresh

/-- The state after first requiring `h`, `μ` and `r` on an identical body. -/
def stateB1 : State :=
  match require ["h", "μ", "r"] bodyFresh with
  | .ok p => p.1
  | .error _ => bodyFresh

/-- Request sequence B: `require(['h','μ','r'])`, then `require(['eccvec'])`. -/
def seqB : Except KErr (State × List String) := require ["eccvec"] stateB1

/-- The `eccvec` value cached after a resolver run (scrutinised by the
order-independence analysis). -/
def eccvecOf : Except KErr (State × List String) → Option Val
  | .ok p => p.1 "eccvec"
  | .error _ => none

/-- Whether a stored value is the invalid value. -/
def isNan : Val → Bool
  | .nan => true
  | _ => false

/-- A body with `Mt = 0`, `n = 1/4`, `epoch = 0` and a cached `ε = 0`,
used to run `eccAnom` at two different clock ticks. -/
def s7 : State := fun k =>
  if k = "Mt" then some (Val.num 0) else
  if k = "n" then some (Val.num (1 / 4)) else
  if k = "epoch" then some (Val.num 0) else
  if k = "ε" then some (Val.num 0) else none

/-- The state of that body after `eccAnom()` runs at clock tick 0. -/
def c7sA : State := eccAnomS 0 s7

/-- The state after a second `eccAnom()` call at clock tick 1. -/
def c7sB : State := eccAnomS 1 c7sA

/-- A body with cached `ecc = 1.5` and `a = -10000` (the hyperbolic-branch
scenario of the spec). -/
def s9 : State := fun k =>
  if k = "ecc" then some (Val.num 1.5) else
  if k = "a" then some (Val.num (-10000)) else none

/-- The round-trip probe: eccentric anomaly `E = π + 0.0047`. -/
def eC3 : ℝ := Real.pi + 47 / 10000

/-- Its mean anomaly `M = E − 0.9·sin E` under eccentricity 0.9. -/
def mC3 : ℝ := eC3 - (9 / 10) * Real.sin eC3

/-- Topological rank of the derivation table: every prerequisite of an
attribute has strictly smaller rank (the table is acyclic). -/
def rank : String → ℕ := fun k =>
  if k = "ek" then 1 else
  if k = "ep" then 1 else
  if k = "I" then 1 else
  if k = "Ω" then 1 else
  if k = "ω" then 1 else
  if k = "ε" then 2 else
  if k = "L" then 2 else
  if k = "h" then 3 else
  if k = "a" then 3 else
  if k = "ecc" then 4 else
  if k = "p" then 4 else
  if k = "Et" then 4 else
  if k = "b" then 5 else
  if k = "ap" then 5 else
  if k = "pe" then 5 else 0

theorem put_self (s : State) (k : String) (v : Val) : put s k v k = some v := by
  simp [put]

theorem put_ne (s : State) (k : String) (v : Val) (q : String) (h : q ≠ k) :
    put s k v q = s q := by
  simp [put, h]

/-- Every table entry lists only prerequisites of strictly smaller rank. -/
theorem table_ranked : ∀ e ∈ ruleTable, ∀ q ∈ e.2, rank q < rank e.1 := by
  decide

/-- Every prerequisite in the derivation table has strictly smaller rank
than the attribute it serves: the table is acyclic. -/
theorem rank_respects (k : String) (ps : List String) (h : prereqOf k = some ps) :
    ∀ q ∈ ps, rank q < rank k := by
  unfold prereqOf at h
  cases hf : ruleTable.find? (fun e => e.1 == k) with
  | none => rw [hf] at h; cases h
  | some e =>
    rw [hf] at h
    have hk : e.1 = k := by
      have := List.find?_some hf
      simpa using this
    obtain rfl : e.2 = ps := by
      simpa using h
    subst hk
    exact table_ranked e (List.mem_of_find?_eq_some hf)

/-- Soundness of one resolver pass: a successful `requireList` run preserves
every cached value, caches every requested name, and its invocation log
contains only names that were uncached before, are cached after, and sit at
or below the rank of some requested name. -/
theorem requireList_spec
    (drv : String → State → Except KErr (State × List String))
    (hd : ∀ k s t l, s k = none → drv k s = .ok (t, l) →
      (∀ q v, s q = some v → t q = some v) ∧
      (∃ v, t k = some v) ∧
      (∀ q ∈ l, s q = none) ∧
      (∀ q ∈ l, ∃ v, t q = some v) ∧
      (∀ q ∈ l, rank q ≤ rank k)) :
    ∀ (ks : List String) (s t : State) (l : List String),
      requireList drv ks s = .ok (t, l) →
      (∀ q v, s q = some v → t q = some v) ∧
      (∀ q ∈ ks, ∃ v, t q = some v) ∧
      (∀ q ∈ l, s q = none) ∧
      (∀ q ∈ l, ∃ v, t q = some v) ∧
      (∀ q ∈ l, ∃ k0 ∈ ks, rank q ≤ rank k0) := by
  intro ks
  induction ks with
  | nil =>
    intro s t l h
    simp only [requireList, Except.ok.injEq, Prod.mk.injEq] at h
    obtain ⟨rfl, rfl⟩ := h
    exact ⟨fun q v hv => hv, by simp, by simp, by simp, by simp⟩
  | cons k ks ih =>
    intro s t l h
    simp only [requireList] at h
    split at h
    · rename_i v0 hk
      obtain ⟨mono, cached, lognone, logcached, logrank⟩ := ih s t l h
      refine ⟨mono, ?_, lognone, logcached, ?_⟩
      · intro q hq
        rcases List.mem_cons.mp hq with rfl | hq2
        · exact ⟨v0, mono q v0 hk⟩
        · exact cached q hq2
      · intro q hq
        obtain ⟨k0, hk0, hle⟩ := logrank q hq
        exact ⟨k0, List.mem_cons_of_mem k hk0, hle⟩
    · rename_i hk
      split at h
      · simp at h
      · rename_i s1 l1 hdrv
        split at h
        · simp at h
        · rename_i s2 l2 hrest
          simp only [Except.ok.injEq, Prod.mk.injEq] at h
          obtain ⟨ht, hl⟩ := h
          subst ht
          subst hl
          obtain ⟨dmono, dcached, dnone, dafter, drank⟩ := hd k s s1 l1 hk hdrv
          obtain ⟨rmono, rcached, rnone, rafter, rrank⟩ := ih s1 s2 l2 hrest
          refine ⟨?_, ?_, ?_, ?_, ?_⟩
          · intro q v hv
            exact rmono q v (dmono q v hv)
          · intro q hq
            rcases List.mem_cons.mp hq with rfl | hq2
            · obtain ⟨v, hv⟩ := dcached
              exact ⟨v, rmono q v hv⟩
            · exact rcached q hq2
          · intro q hq
            rcases List.mem_append.mp hq with hq1 | hq2
            · exact dnone q hq1
            · cases hsq : s q with
              | none => rfl
              | some v => exact absurd (dmono q v hsq) (by rw [rnone q hq2]; simp)
          · intro q hq
            rcases List.mem_append.mp hq with hq1 | hq2
            · obtain ⟨v, hv⟩ := dafter q hq1
              exact ⟨v, rmono q v hv⟩
            · exact rafter q hq2
          · intro q hq
            rcases List.mem_append.mp hq with hq1 | hq2
            · exact ⟨k, List.mem_cons_self k ks, drank q hq1⟩
            · obtain ⟨k0, hk0, hle⟩ := rrank q hq2
              exact ⟨k0, List.mem_cons_of_mem k hk0, hle⟩

/-- Soundness of one `set_k` invocation (any fuel): the run preserves every
cached value, caches `k` itself, logs only previously uncached names of rank
at most `rank k`, all cached afterwards, and logs `k` at most once. -/
theorem deriveF_spec :
    ∀ (fuel : ℕ) (k : String) (s t : State) (l : List String),
      s k = none → deriveF fuel k s = .ok (t, l) →
      (∀ q v, s q = some v → t q = some v) ∧
      (∃ v, t k = some v) ∧
      (∀ q ∈ l, s q = none) ∧
      (∀ q ∈ l, ∃ v, t q = some v) ∧
      (∀ q ∈ l, rank q ≤ rank k) ∧
      l.count k ≤ 1 := by
  intro fuel
  induction fuel with
  | zero =>
    intro k s t l hk h
    simp only [deriveF] at h
    split at h <;> simp at h
  | succ fuel ih =>
    intro k s t l hk h
    simp only [deriveF] at h
    split at h
    · simp at h
    · rename_i pres hpres
      split at h
      · simp at h
      · rename_i s1 l1 hreq
        simp only [Except.ok.injEq, Prod.mk.injEq] at h
        obtain ⟨ht, hl⟩ := h
        subst ht
        subst hl
        have R := requireList_spec (deriveF fuel)
          (fun k2 s2 t2 l2 hn hok =>
            ⟨(ih k2 s2 t2 l2 hn hok).1, (ih k2 s2 t2 l2 hn hok).2.1,
             (ih k2 s2 t2 l2 hn hok).2.2.1, (ih k2 s2 t2 l2 hn hok).2.2.2.1,
             (ih k2 s2 t2 l2 hn hok).2.2.2.2.1⟩)
          pres s s1 l1 hreq
        obtain ⟨rmono, rcached, rnone, rafter, rrank⟩ := R
        have hknotl1 : k ∉ l1 := by
          intro hmem
          obtain ⟨k0, hk0, hle⟩ := rrank k hmem
          exact absurd (lt_of_le_of_lt hle (rank_respects k pres hpres k0 hk0))
            (lt_irrefl (rank k))
        refine ⟨?_, ⟨fml k s1, put_self s1 k (fml k s1)⟩, ?_, ?_, ?_, ?_⟩
        · intro q v hv
          have hqk : q ≠ k := by
            intro hqk
            rw [hqk, hk] at hv
            cases hv
          rw [put_ne s1 k (fml k s1) q hqk]
          exact rmono q v hv
        · intro q hq
          rcases List.mem_append.mp hq with hq1 | hq2
          · exact rnone q hq1
          · rw [List.mem_singleton.mp hq2]
            exact hk
        · intro q hq
          rcases List.mem_append.mp hq with hq1 | hq2
          · by_cases hqk : q = k
            · exact ⟨fml k s1, by rw [hqk]; exact put_self s1 k (fml k s1)⟩
            · obtain ⟨v, hv⟩ := rafter q hq1
              exact ⟨v, by rw [put_ne s1 k (fml k s1) q hqk]; exact hv⟩
          · rw [List.mem_singleton.mp hq2]
            exact ⟨fml k s1, put_self s1 k (fml k s1)⟩
        · intro q hq
          rcases List.mem_append.mp hq with hq1 | hq2
          · obtain ⟨k0, hk0, hle⟩ := rrank q hq1
            exact le_of_lt (lt_of_le_of_lt hle (rank_respects k pres hpres k0 hk0))
          · rw [List.mem_singleton.mp hq2]
        · rw [List.count_append, List.count_eq_zero.mpr hknotl1]
          simp

/-- Cache facts about a successful `require` run: every previously cached
value survives unchanged, and every requested name is cached afterwards. -/
theorem require_spec (ks : List String) (s t : State) (l : List String)
    (h : require ks s = .ok (t, l)) :
    (∀ q v, s q = some v → t q = some v) ∧ (∀ q ∈ ks, ∃ v, t q = some v) := by
  have R := requireList_spec (deriveF 30)
    (fun k2 s2 t2 l2 hn hok =>
      ⟨(deriveF_spec 30 k2 s2 t2 l2 hn hok).1, (deriveF_spec 30 k2 s2 t2 l2 hn hok).2.1,
       (deriveF_spec 30 k2 s2 t2 l2 hn hok).2.2.1, (deriveF_spec 30 k2 s2 t2 l2 hn hok).2.2.2.1,
       (deriveF_spec 30 k2 s2 t2 l2 hn hok).2.2.2.2.1⟩)
    ks s t l h
  exact ⟨R.1, R.2.1⟩

/-- When the residual test fails (the residual is inside tolerance, or is
NaN), the Newton loop exits immediately with the current iterate. -/
theorem newtonLoop_exit (e m : JsN) (fuel : ℕ) (ecur f : JsN)
    (h : jsLtB (some 0.001) (jsAbs f) = false) :
    newtonLoop e m (fuel + 1) ecur f = (ecur, 0) := by
  simp only [newtonLoop]
  rw [h]
  simp

/-- The Newton loop never iterates more often than its fuel allows. -/
theorem newtonLoop_iter_le (e m : JsN) :
    ∀ (fuel : ℕ) (ecur f : JsN), (newtonLoop e m fuel ecur f).2 ≤ fuel := by
  intro fuel
  induction fuel with
  | zero => intro ecur f; simp [newtonLoop]
  | succ n ih =>
    intro ecur f
    simp only [newtonLoop]
    split
    · have := ih (jsSub ecur (jsDiv f (jsSub (some 1) (jsMul e (jsCos ecur)))))
        (resid e m (jsSub ecur (jsDiv f (jsSub (some 1) (jsMul e (jsCos ecur))))))
      simpa using Nat.succ_le_succ this
    · simp

/-- C2: on every input the solver's Newton loop runs at most 30 iterations
and terminates; no convergence flag is produced — the body's `E` slot simply
receives the last iterate divided by `K = π/180`, whether or not the
tolerance was met. -/
theorem solver_iteration_cap :
    ∀ (e m : JsN) (tick : ℝ) (s : State),
      (eccAnomCore e m).2 ≤ 30
      ∧ storedE e m = jsDiv (eccAnomE e m) (some (Real.pi / 180))
      ∧ (eccAnomS tick s) "E" = some (toVal (jsDiv (eccAnomE (getNum s "ε")
          (reduceM (rawM (getNum s "Mt") (getNum s "n") (getNum s "epoch") (some tick))))
          (some K))) :=
  fun e m _tick _s => ⟨newtonLoop_iter_le e m 30 (initE e m) (firstF e m), rfl, rfl⟩

/-- C4: every `eccAnom` call first sets `M = Mt + n·(tick − epoch)` and then
replaces it by `2π·(M − floor M)`, and the reduced value always lies in
`[0, 2π)`. -/
theorem meanAnomaly_reduction_range :
    ∀ (mt n epoch tick : ℝ),
      reduceM (rawM (some mt) (some n) (some epoch) (some tick))
        = some (2 * Real.pi * ((mt + n * (tick - epoch)) - ((⌊mt + n * (tick - epoch)⌋ : ℤ) : ℝ)))
      ∧ 0 ≤ 2 * Real.pi * ((mt + n * (tick - epoch)) - ((⌊mt + n * (tick - epoch)⌋ : ℤ) : ℝ))
      ∧ 2 * Real.pi * ((mt + n * (tick - epoch)) - ((⌊mt + n * (tick - epoch)⌋ : ℤ) : ℝ))
          < 2 * Real.pi := by
  intro mt n epoch tick
  refine ⟨rfl, ?_, ?_⟩
  · rw [Int.self_sub_floor]
    exact mul_nonneg (le_of_lt Real.two_pi_pos) (Int.fract_nonneg _)
  · rw [Int.self_sub_floor]
    have h := mul_lt_mul_of_pos_left (Int.fract_lt_one (mt + n * (tick - epoch))) Real.two_pi_pos
    simpa using h

/-- C5: `set_eccvec` invokes no `require` at all, so deriving `eccvec` on a
freshly constructed body caches none of `h`, `μ`, `r` and stores the invalid
value computed from the still-undefined `h`, `μ` and `r` — contradicting the
derivation-rule table and the method's own documentation comment. -/
theorem eccvec_derivation_skips_prereqs :
    require ["eccvec"] bodyFresh = .ok (eccvecState, ["eccvec"])
    ∧ eccvecState "h" = none ∧ eccvecState "μ" = none ∧ eccvecState "r" = none
    ∧ eccvecState "eccvec" = some Val.nan :=
  ⟨rfl, rfl, rfl, rfl, rfl⟩

/-- C6: resolving an attribute a second time returns the identical cached
state without invoking any `set_` derivation again, and the attribute's own
derivation is invoked at most once by the first resolution. -/
theorem require_idempotent (x : String) (s s1 : State) (l1 : List String)
    (h : require [x] s = .ok (s1, l1)) :
    require [x] s1 = .ok (s1, []) ∧ l1.count x ≤ 1 := by
  unfold require at h ⊢
  simp only [requireList] at h
  split at h
  · rename_i v hx
    simp only [Except.ok.injEq, Prod.mk.injEq] at h
    obtain ⟨ht, hl⟩ := h
    subst ht
    subst hl
    constructor
    · simp only [requireList]
      rw [hx]
    · simp
  · rename_i hx
    split at h
    · simp at h
    · rename_i st lt hder
      simp only [Except.ok.injEq, Prod.mk.injEq] at h
      obtain ⟨ht, hl⟩ := h
      subst ht
      subst hl
      have D := deriveF_spec 30 x s st lt hx hder
      obtain ⟨-, ⟨v, hv⟩, -, -, -, hcount⟩ := D
      constructor
      · simp only [requireList]
        rw [hv]
      · simpa using hcount

/-- Witness for C6: deriving `r` on the fresh body, then requiring it again,
returns the same state with no further invocation. -/
theorem require_idempotent_witness :
    require ["r"] bodyFresh = .ok (rState, ["r"])
    ∧ require ["r"] rState = .ok (rState, [])
    ∧ (["r"] : List String).count "r" ≤ 1 :=
  ⟨rfl, (require_idempotent "r" bodyFresh rState ["r"] rfl).1,
   (require_idempotent "r" bodyFresh rState ["r"] rfl).2⟩

/-- C7 (amended): a cached attribute is never changed by any `require` call,
but the pipeline attributes are not write-once: every `eccAnom()` call
unconditionally overwrites `M` (and `E`) with values computed from the
current clock tick. -/
theorem cache_monotone_pipeline_overwrites :
    (∀ (ks : List String) (s t : State) (l : List String) (q : String) (v : Val),
      require ks s = .ok (t, l) → s q = some v → t q = some v)
    ∧ (∀ (tick : ℝ) (s : State),
        (eccAnomS tick s) "M" = some (toVal (reduceM (rawM (getNum s "Mt") (getNum s "n")
          (getNum s "epoch") (some tick))))
        ∧ (eccAnomS tick s) "E" = some (toVal (jsDiv (eccAnomE (getNum s "ε")
            (reduceM (rawM (getNum s "Mt") (getNum s "n") (getNum s "epoch") (some tick))))
            (some K)))) := by
  constructor
  · intro ks s t l q v h hv
    exact (require_spec ks s t l h).1 q v hv
  · intro tick s
    exact ⟨rfl, rfl⟩

/-- Witness for C7's theorem: requiring `r` preserves the cached `rvec`, and
`eccAnom` at tick 0 stores the recomputed `M`. -/
theorem cache_monotone_witness :
    rState "rvec" = some (Val.vec 1 0)
    ∧ (eccAnomS 0 s7) "M" = some (toVal (reduceM (rawM (getNum s7 "Mt") (getNum s7 "n")
        (getNum s7 "epoch") (some 0)))) :=
  ⟨cache_monotone_pipeline_overwrites.1 ["r"] bodyFresh rState ["r"] "rvec" (Val.vec 1 0) rfl rfl,
   (cache_monotone_pipeline_overwrites.2 0 s7).1⟩

/-- Counterexample to C7 as stated: after `eccAnom()` at tick 0 the body
holds `M = 0`, and a later `eccAnom()` at tick 1 changes the stored `M` to
`π/2`. -/
theorem pipeline_M_changes :
    c7sA "M" = some (Val.num 0)
    ∧ c7sB "M" = some (Val.num (Real.pi / 2))
    ∧ Val.num (0 : ℝ) ≠ Val.num (Real.pi / 2) := by
  refine ⟨?_, ?_, ?_⟩
  · show some (Val.num (2 * Real.pi * (((0 : ℝ) + 1 / 4 * (0 - 0))
      - ((⌊(0 : ℝ) + 1 / 4 * (0 - 0)⌋ : ℤ) : ℝ)))) = some (Val.num 0)
    norm_num
  · show some (Val.num (2 * Real.pi * (((0 : ℝ) + 1 / 4 * (1 - 0))
      - ((⌊(0 : ℝ) + 1 / 4 * (1 - 0)⌋ : ℤ) : ℝ)))) = some (Val.num (Real.pi / 2))
    have hfl : (⌊(0 : ℝ) + 1 / 4 * (1 - 0)⌋ : ℤ) = 0 := by
      rw [Int.floor_eq_zero_iff, Set.mem_Ico]
      constructor <;> norm_num
    rw [hfl]
    have harith : 2 * Real.pi * (((0 : ℝ) + 1 / 4 * (1 - 0)) - ((0 : ℤ) : ℝ)) = Real.pi / 2 := by
      push_cast
      ring
    rw [harith]
  · intro h
    injection h with h2
    have hp := Real.pi_pos
    linarith [h2, hp]

/-- C8: requesting a name with neither a cached value nor a `set_` rule makes
`require` signal the missing-derivation error to its caller instead of
silently storing anything. -/
theorem missing_rule_signals_error (x : String) (s : State)
    (hx : s x = none) (hr : prereqOf x = none) :
    require [x] s = .error (.missingDerivation x) := by
  unfold require
  simp only [requireList, hx]
  rw [show (30 : ℕ) = 29 + 1 from rfl]
  simp only [deriveF, hr]

/-- Witness for C8: the epoch input `Mt` has no rule and is not precomputed
on a fresh body, so requesting it fails. -/
theorem missing_rule_witness :
    bodyFresh "Mt" = none ∧ prereqOf "Mt" = none
    ∧ require ["Mt"] bodyFresh = .error (.missingDerivation "Mt") :=
  ⟨rfl, rfl, missing_rule_signals_error "Mt" bodyFresh rfl rfl⟩

/-- C10: request order changes cached values.  Two bodies built from the same
`rvec`, `vvec`, `mass`: requesting `eccvec` first caches the invalid value,
while requesting `h`, `μ`, `r` first and then `eccvec` caches a proper
vector — the cached `eccvec` values differ. -/
theorem eccvec_order_dependent :
    (eccvecOf seqA).map isNan = some true
    ∧ (eccvecOf seqB).map isNan = some false
    ∧ eccvecOf seqA ≠ eccvecOf seqB := by
  refine ⟨rfl, rfl, ?_⟩
  intro h
  have h3 : (some true : Option Bool) = some false := by
    calc (some true : Option Bool) = (eccvecOf seqA).map isNan := rfl
      _ = (eccvecOf seqB).map isNan := by rw [h]
      _ = some false := rfl
  exact Bool.noConfusion (Option.some.inj h3)

/-- C1: the code's pre-loop residual (source line 265) evaluates
`sin(this.M)`, not `sin(E)`: at `ε = 1`, `M = π/2` the initial guess is `π`
and the first residual is `π/2 − 1`, whereas `E₀ − ε·sin(E₀) − M` would be
`π/2`. -/
theorem firstResidual_mismatch :
    initE (some 1) (some (Real.pi / 2)) = some Real.pi
    ∧ firstF (some 1) (some (Real.pi / 2)) = some (Real.pi / 2 - 1)
    ∧ Real.pi - 1 * Real.sin Real.pi - Real.pi / 2 = Real.pi / 2
    ∧ Real.pi / 2 - 1 ≠ Real.pi / 2 := by
  have hinit : initE (some 1) (some (Real.pi / 2)) = some Real.pi := by
    unfold initE
    rw [show jsLtB (some (1 : ℝ)) (some 0.8) = false from by
      simp only [jsLtB]
      rw [decide_eq_false_iff_not]
      norm_num]
    simp
  refine ⟨hinit, ?_, ?_, ?_⟩
  · unfold firstF
    rw [hinit]
    show some (Real.pi - 1 * Real.sin (Real.pi / 2) - Real.pi / 2) = some (Real.pi / 2 - 1)
    rw [Real.sin_pi_div_two]
    rw [show Real.pi - 1 * 1 - Real.pi / 2 = Real.pi / 2 - 1 from by ring]
  · rw [Real.sin_pi]
    ring
  · intro h
    linarith [h]

/-- The value `set_b` stores for a body with cached `ecc = 1.5` and
`a = -10000`: the hyperbolic branch with `b = a·√(ecc² − 1)`. -/
theorem set_b_val_s9 : fml "b" s9 = Val.num ((-10000) * Real.sqrt (1.5 * 1.5 - 1)) := by
  have hc : jsLtB (some 1) (getNum s9 "ecc") = true := by
    show jsLtB (some 1) (some (1.5 : ℝ)) = true
    simp only [jsLtB]
    rw [decide_eq_true_eq]
    norm_num
  have hs : jsSqrt (some ((1.5 : ℝ) * 1.5 - 1)) = some (Real.sqrt (1.5 * 1.5 - 1)) := by
    simp only [jsSqrt]
    rw [if_neg]
    norm_num
  show (if jsLtB (some 1) (getNum s9 "ecc") then
      toVal (jsMul (getNum s9 "a") (jsSqrt (jsSub (jsSq (getNum s9 "ecc")) (some 1))))
    else
      toVal (jsMul (getNum s9 "a") (jsSqrt (jsSub (some 1) (jsSq (getNum s9 "ecc"))))))
    = Val.num ((-10000) * Real.sqrt (1.5 * 1.5 - 1))
  rw [hc]
  show toVal (jsMul (some ((-10000 : ℝ))) (jsSqrt (some ((1.5 : ℝ) * 1.5 - 1))))
    = Val.num ((-10000) * Real.sqrt (1.5 * 1.5 - 1))
  rw [hs]
  rfl

/-- Counterexample to C9 as stated: on cached `ecc = 1.5`, `a = -10000` the
hyperbolic branch fires and yields `b = -10000·√1.25`, a real but strictly
negative number — not the positive value the claim asserts. -/
theorem set_b_negative :
    require ["b"] s9 = .ok (put s9 "b" (fml "b" s9), ["b"])
    ∧ fml "b" s9 = Val.num ((-10000) * Real.sqrt (1.5 * 1.5 - 1))
    ∧ (-10000 : ℝ) * Real.sqrt (1.5 * 1.5 - 1) < 0 := by
  refine ⟨rfl, set_b_val_s9, ?_⟩
  have h : 0 < Real.sqrt (1.5 * 1.5 - 1) := Real.sqrt_pos.mpr (by norm_num)
  nlinarith [h]

/-- C9 (amended): `set_b` computes `b = a·√(ecc² − 1)` exactly when
`ecc > 1` and `b = a·√(1 − ecc²)` when `ecc ≤ 1` (real whenever
`ecc ≥ -1`); on cached `ecc = 1.5`, `a = -10000` the hyperbolic branch is
taken and the result is real but negative, since `a < 0`. -/
theorem set_b_branch_formula (av ev : ℝ) (s : State)
    (ha : s "a" = some (Val.num av)) (he : s "ecc" = some (Val.num ev)) :
    (1 < ev → fml "b" s = Val.num (av * Real.sqrt (ev * ev - 1)))
    ∧ (¬ 1 < ev → -1 ≤ ev → fml "b" s = Val.num (av * Real.sqrt (1 - ev * ev))) := by
  have hga : getNum s "a" = some av := by simp [getNum, ha]
  have hge : getNum s "ecc" = some ev := by simp [getNum, he]
  constructor
  · intro hlt
    have hc : jsLtB (some 1) (getNum s "ecc") = true := by
      rw [hge]
      simp only [jsLtB]
      rw [decide_eq_true_eq]
      exact hlt
    have hnn : ¬ (ev * ev - 1 < 0) := by nlinarith
    show (if jsLtB (some 1) (getNum s "ecc") then
        toVal (jsMul (getNum s "a") (jsSqrt (jsSub (jsSq (getNum s "ecc")) (some 1))))
      else
        toVal (jsMul (getNum s "a") (jsSqrt (jsSub (some 1) (jsSq (getNum s "ecc"))))))
      = Val.num (av * Real.sqrt (ev * ev - 1))
    rw [hc]
    simp only [hga, hge, jsSq, jsSub, jsMul, jsSqrt]
    rw [if_neg hnn]
    rfl
  · intro hge1 hgem1
    have hc : jsLtB (some 1) (getNum s "ecc") = false := by
      rw [hge]
      simp only [jsLtB]
      rw [decide_eq_false_iff_not]
      exact hge1
    have hnn : ¬ ((1 : ℝ) - ev * ev < 0) := by nlinarith
    show (if jsLtB (some 1) (getNum s "ecc") then
        toVal (jsMul (getNum s "a") (jsSqrt (jsSub (jsSq (getNum s "ecc")) (some 1))))
      else
        toVal (jsMul (getNum s "a") (jsSqrt (jsSub (some 1) (jsSq (getNum s "ecc"))))))
      = Val.num (av * Real.sqrt (1 - ev * ev))
    rw [hc]
    simp only [hga, hge, jsSq, jsSub, jsMul, jsSqrt]
    rw [if_neg hnn]
    rfl

/-- Witness for C9's amended theorem: the concrete hyperbolic body. -/
theorem set_b_branch_witness :
    s9 "a" = some (Val.num (-10000)) ∧ s9 "ecc" = some (Val.num 1.5)
    ∧ fml "b" s9 = Val.num ((-10000) * Real.sqrt (1.5 * 1.5 - 1)) :=
  ⟨rfl, rfl, (set_b_branch_formula (-10000) 1.5 s9 rfl rfl).1 (by norm_num)⟩

/-- Quantitative facts about the round-trip probe `M = mC3`: it lies just
above `π`, and the line-265 residual at the initial guess `π` is already
inside the 0.001 tolerance. -/
theorem mC3_facts :
    Real.pi < mC3 ∧ mC3 < Real.pi + 9 / 1000
    ∧ |Real.pi - 9 / 10 * Real.sin mC3 - mC3| ≤ 1 / 1000 := by
  have hπ3 : (3 : ℝ) < Real.pi := Real.pi_gt_three
  have hd0 : (0 : ℝ) < 47 / 10000 := by norm_num
  have hdπ : (47 : ℝ) / 10000 < Real.pi := by linarith
  have hs_lt : Real.sin (47 / 10000) < 47 / 10000 := Real.sin_lt hd0
  have hs_pos : 0 < Real.sin (47 / 10000) := Real.sin_pos_of_pos_of_lt_pi hd0 hdπ
  set u : ℝ := 47 / 10000 + 9 / 10 * Real.sin (47 / 10000) with hu_def
  have hu0 : 0 < u := by rw [hu_def]; linarith
  have huub : u < 893 / 100000 := by rw [hu_def]; linarith
  have hu1 : u ≤ 1 := le_trans (le_of_lt huub) (by norm_num)
  have hm_eq : mC3 = Real.pi + u := by
    rw [hu_def]
    unfold mC3 eC3
    rw [Real.sin_add, Real.sin_pi, Real.cos_pi]
    ring
  have hsin_m : Real.sin mC3 = -Real.sin u := by
    rw [hm_eq, Real.sin_add, Real.sin_pi, Real.cos_pi]
    ring
  have hsu_lt : Real.sin u < u := Real.sin_lt hu0
  have hcube : u - u ^ 3 / 4 < Real.sin u := Real.sin_gt_sub_cube hu0 hu1
  have hcube_ub : u ^ 3 ≤ (893 / 100000 : ℝ) ^ 3 :=
    pow_le_pow_left₀ (le_of_lt hu0) (le_of_lt huub) 3
  have hval : Real.pi - 9 / 10 * Real.sin mC3 - mC3 = 9 / 10 * Real.sin u - u := by
    rw [hsin_m, hm_eq]
    ring
  have hnonpos : 9 / 10 * Real.sin u - u ≤ 0 := by linarith
  have habs : |Real.pi - 9 / 10 * Real.sin mC3 - mC3| = u - 9 / 10 * Real.sin u := by
    rw [hval, abs_of_nonpos hnonpos]
    ring
  refine ⟨?_, ?_, ?_⟩
  · rw [hm_eq]; linarith
  · rw [hm_eq]; linarith
  · rw [habs]
    have step1 : u - 9 / 10 * Real.sin u ≤ 1 / 10 * u + 9 / 40 * u ^ 3 := by linarith
    have step2 : 1 / 10 * u + 9 / 40 * u ^ 3
        ≤ 1 / 10 * (893 / 100000) + 9 / 40 * (893 / 100000 : ℝ) ^ 3 := by linarith
    have step3 : 1 / 10 * ((893 : ℝ) / 100000) + 9 / 40 * (893 / 100000 : ℝ) ^ 3
        ≤ 1 / 1000 := by norm_num
    linarith

/-- C3: the Kepler round-trip fails inside the claimed ranges.  With
`ε = 0.9 ∈ [0, 0.95]` and `E = π + 0.0047 ∈ (0, 2π)` (a well-conditioned
apoapsis-side point, not a near-parabolic pathology), the mean anomaly
`M = E − ε·sin E` is realisable as a reduced mean anomaly, yet the solver's
line-265 pre-loop residual already passes the tolerance test, the loop never
runs, and the returned `E' = π` misses `E` by 0.0047 > 0.001. -/
theorem roundtrip_failure :
    (0 < eC3 ∧ eC3 < 2 * Real.pi)
    ∧ mC3 = eC3 - 9 / 10 * Real.sin eC3
    ∧ reduceM (rawM (some (mC3 / (2 * Real.pi))) (some 0) (some 0) (some 0)) = some mC3
    ∧ eccAnomE (some (9 / 10)) (some mC3) = some Real.pi
    ∧ 1 / 1000 < |Real.pi - eC3| := by
  obtain ⟨hlb, hub, hbound⟩ := mC3_facts
  have hπ3 : (3 : ℝ) < Real.pi := Real.pi_gt_three
  refine ⟨⟨?_, ?_⟩, rfl, ?_, ?_, ?_⟩
  · unfold eC3; linarith
  · unfold eC3; linarith
  · have h2π : (0 : ℝ) < 2 * Real.pi := by linarith
    have hm0 : 0 < mC3 := by linarith
    have hm2π : mC3 < 2 * Real.pi := by linarith
    show some (2 * Real.pi * ((mC3 / (2 * Real.pi) + 0 * ((0 : ℝ) - 0))
      - ((⌊mC3 / (2 * Real.pi) + 0 * ((0 : ℝ) - 0)⌋ : ℤ) : ℝ))) = some mC3
    have hsimp : mC3 / (2 * Real.pi) + 0 * ((0 : ℝ) - 0) = mC3 / (2 * Real.pi) := by ring
    rw [hsimp]
    have hfl : (⌊mC3 / (2 * Real.pi)⌋ : ℤ) = 0 := by
      rw [Int.floor_eq_zero_iff, Set.mem_Ico]
      constructor
      · positivity
      · rw [div_lt_one h2π]
        exact hm2π
    rw [hfl]
    have harith : 2 * Real.pi * (mC3 / (2 * Real.pi) - ((0 : ℤ) : ℝ)) = mC3 := by
      push_cast
      field_simp
    rw [harith]
  · have hinit : initE (some (9 / 10)) (some mC3) = some Real.pi := by
      unfold initE
      rw [show jsLtB (some ((9 : ℝ) / 10)) (some 0.8) = false from by
        simp only [jsLtB]
        rw [decide_eq_false_iff_not]
        norm_num]
      simp
    have hF : firstF (some (9 / 10)) (some mC3)
        = some (Real.pi - 9 / 10 * Real.sin mC3 - mC3) := by
      unfold firstF
      rw [hinit]
      rfl
    have hcond : jsLtB (some 0.001) (jsAbs (firstF (some (9 / 10)) (some mC3))) = false := by
      rw [hF]
      simp only [jsAbs, jsLtB]
      rw [decide_eq_false_iff_not, not_lt]
      calc |Real.pi - 9 / 10 * Real.sin mC3 - mC3| ≤ 1 / 1000 := hbound
        _ ≤ 0.001 := by norm_num
    unfold eccAnomE eccAnomCore
    rw [show (30 : ℕ) = 29 + 1 from rfl]
    rw [newtonLoop_exit (some (9 / 10)) (some mC3) 29 (initE (some (9 / 10)) (some mC3))
      (firstF (some (9 / 10)) (some mC3)) hcond]
    exact hinit
  · have hpe : Real.pi - eC3 = -(47 / 10000) := by unfold eC3; ring
    rw [hpe, abs_neg, abs_of_pos (by norm_num : (0 : ℝ) < 47 / 10000)]
    norm_num

end Kepler

end
